import Mathlib

/-!
Shallow embedding of the catobase file-tagging utility (catostruct.go).

The filesystem is modelled as an association list from paths to whole-file
contents.  Go functions that perform I/O become functions from an `FS` state
to a pair of the new state and a Go-style `(bool, error)` result, rendered
as `Except String Bool`.  Wall-clock time (`time.Now().Format(time.RFC3339)`)
is modelled by an explicit `now : String` parameter.  `regexp.Compile` is
modelled by an `Option (String → Bool)`: `some matcher` on success, `none`
for a compile error.
-/

namespace Catobase

/-- The filesystem: an association list mapping each path to its content. -/
abbrev FS := List (String × String)

/-- Reading a file's whole content, `none` when the path does not exist. -/
def FS.read (fs : FS) (p : String) : Option String :=
  (fs.find? (fun e => e.1 == p)).map (fun e => e.2)

/-- Whether a path exists in the filesystem. -/
def FS.exists (fs : FS) (p : String) : Bool :=
  (FS.read fs p).isSome

/-- Writing (creating or fully replacing) the content of a path: replace the
first entry for the path in place, or append a fresh entry at the end. -/
def FS.write (fs : FS) (p c : String) : FS :=
  match fs with
  | [] => [(p, c)]
  | e :: t => if e.1 == p then (p, c) :: t else e :: FS.write t p c

/-- `dropCR` of bufio.ScanLines: strip one trailing carriage return. -/
def dropCR (l : List Char) : List Char :=
  if l.getLast? = some '\r' then l.dropLast else l

/-- The line sequence a `bufio.Scanner` with `ScanLines` produces from a file
content: split on newline, drop the empty final token a trailing newline
leaves, and strip a trailing carriage return from each line. -/
def scanLines (s : String) : List String :=
  let raw := s.toList.splitOn '\n'
  let raw := if raw.getLast? = some [] then raw.dropLast else raw
  raw.map (fun l => (dropCR l).asString)

/-- The Go write loop `for each line: WriteString (line + "\n")`. -/
def writeLines (ls : List String) : String :=
  ls.foldl (fun acc l => acc ++ l ++ "\n") ""

/-- Go `strings.Split` with a one-character separator: split the character
sequence on that character (never returns an empty list of parts). -/
def goSplit (s : String) (sep : Char) : List String :=
  (s.toList.splitOn sep).map List.asString

/-- `CreateCategory categories fileName`: create the file with
`O_CREATE|O_EXCL|O_WRONLY` (fails with "file already exists" when it is
already present), then write each category on its own line. -/
def CreateCategory (fs : FS) (categories : List String) (fileName : String) :
    FS × Except String Bool :=
  if FS.exists fs fileName then (fs, .error "file already exists")
  else (FS.write fs fileName (writeLines categories), .ok true)

/-- `DeleteCategory categoryToRemove fileName`: `checkFileExists` (fails with
"file does not exist" when missing), read the lines, keep those different
from `categoryToRemove`, rewrite the file with the survivors in order. -/
def DeleteCategory (fs : FS) (categoryToRemove : String) (fileName : String) :
    FS × Except String Bool :=
  match FS.read fs fileName with
  | none => (fs, .error "file does not exist")
  | some content =>
      let categories := (scanLines content).filter (fun c => c != categoryToRemove)
      (FS.write fs fileName (writeLines categories), .ok true)

/-- The comma-joining loop of `format`: `cat += category`, inserting "," while
more elements remain. -/
def joinComma : List String → String
  | [] => ""
  | [c] => c
  | c :: cs => c ++ "," ++ joinComma cs

/-- `format path categories separator`: default the separator to "|" when
empty, comma-join the categories, and produce
`path ++ sep ++ cats ++ sep ++ now`.  `now` stands for the RFC-3339 rendering
of `time.Now()` taken at format time. -/
def format (path : String) (categories : List String) (separator : String)
    (now : String) : String :=
  let sep := if separator = "" then "|" else separator
  path ++ sep ++ joinComma categories ++ sep ++ now

/-- `readFile fileName`: open and scan all lines; the raw open error is
propagated when the path is missing. -/
def readFile (fs : FS) (fileName : String) : Except String (List String) :=
  match FS.read fs fileName with
  | none => .error "no such file or directory"
  | some content => .ok (scanLines content)

/-- `registerFile fileName categories copy`: check the subject exists, format
the entry with the default separator, open ".catodb" in append mode (it must
already exist), optionally snapshot the subject to `fileName ++ ".copy"`, and
append the formatted entry plus a newline to ".catodb". -/
def registerFile (fs : FS) (fileName : String) (categories : List String)
    (copy : Bool) (now : String) : FS × Except String Bool :=
  match FS.read fs fileName with
  | none => (fs, .error "file does not exist")
  | some content =>
      let formatted := format fileName categories "" now
      if FS.exists fs ".catodb" then
        let fs1 := if copy then FS.write fs (fileName ++ ".copy") content else fs
        let db := (FS.read fs1 ".catodb").getD ""
        (FS.write fs1 ".catodb" (db ++ formatted ++ "\n"), .ok true)
      else (fs, .error "failed to open .catodb for writing: file does not exist")

/-- `containsAll set subset`: every element of `subset` occurs in `set`
(the Go map is modelled by list membership). -/
def containsAll (set subset : List String) : Bool :=
  subset.all (fun s => set.contains s)

/-- One entry produced by `filepath.Walk`: the path, the base name
(`info.Name()`), whether it is a directory, and the traversal error passed to
the callback for this entry, if any. -/
structure WalkEntry where
  path : String
  name : String
  isDir : Bool
  walkErr : Option String

/-- The `filepath.Walk` callback loop of `registerFiles` over the traversal
sequence: abort on a traversal error; for each non-directory entry whose base
name matches, read the file's own lines as its categories and register it
with snapshotting on, aborting on any failure; collect registered paths. -/
def walkRegister (re : String → Bool) (now : String) :
    FS → List String → List WalkEntry → FS × Except String (List String)
  | fs, acc, [] => (fs, .ok acc)
  | fs, acc, e :: rest =>
    match e.walkErr with
    | some w => (fs, .error w)
    | none =>
      if !e.isDir && re e.name then
        match readFile fs e.path with
        | .error err => (fs, .error err)
        | .ok categories =>
          match registerFile fs e.path categories true now with
          | (fs1, .error err) => (fs1, .error err)
          | (fs1, .ok success) =>
            walkRegister re now fs1 (if success then acc ++ [e.path] else acc) rest
  else walkRegister re now fs acc rest

/-- `registerFiles folder regex`: compile the pattern (modelled by `reOpt`),
then walk the folder's entries registering every match. -/
def registerFiles (fs : FS) (reOpt : Option (String → Bool))
    (entries : List WalkEntry) (now : String) : FS × Except String (List String) :=
  match reOpt with
  | none => (fs, .error "error parsing regexp")
  | some re => walkRegister re now fs [] entries

/-- `get regex categories`: `checkFileExists ".catodb"` first, then compile
the pattern, then scan every line: split on "|", skip lines with fewer than
3 fields, collect `parts[0]` whenever it matches the pattern and
`parts[1]` split on "," contains all required categories. -/
def get (fs : FS) (reOpt : Option (String → Bool)) (categories : List String) :
    Except String (List String) :=
  match FS.read fs ".catodb" with
  | none => .error "file does not exist"
  | some db =>
    match reOpt with
    | none => .error "error parsing regexp"
    | some re =>
      .ok ((scanLines db).foldl (fun found line =>
        let parts := goSplit line '|'
        if parts.length < 3 then found
        else
          let path := parts.getD 0 ""
          let fileCategories := goSplit (parts.getD 1 "") ','
          if re path && containsAll fileCategories categories then found ++ [path]
          else found) [])

/-- The query engine's re-parsing of a single registry line: split on "|",
require at least 3 fields, return the path field and the comma-split
category field. -/
def parseLine (line : String) : Option (String × List String) :=
  let parts := goSplit line '|'
  if parts.length < 3 then none
  else some (parts.getD 0 "", goSplit (parts.getD 1 "") ',')

/-- The Query Engine's contract as the specification states it: per line,
split on "|"; silently skip lines with fewer than 3 fields; keep the path
field exactly when it matches the pattern and the comma-split category field
contains every required category; results in scan order, duplicates kept. -/
def querySpec (re : String → Bool) (required : List String) :
    List String → List String
  | [] => []
  | line :: rest =>
    let parts := goSplit line '|'
    if parts.length < 3 then querySpec re required rest
    else
      let path := parts.getD 0 ""
      let recordCats := goSplit (parts.getD 1 "") ','
      if re path = true ∧ (∀ c ∈ required, c ∈ recordCats)
      then path :: querySpec re required rest
      else querySpec re required rest

/-! ## Helper lemmas about the model -/

theorem toList_append (a b : String) : (a ++ b).toList = a.toList ++ b.toList := rfl

theorem strAppend_assoc (a b c : String) : a ++ b ++ c = a ++ (b ++ c) := by
  apply String.toList_inj.mp
  rw [toList_append, toList_append, toList_append, toList_append, List.append_assoc]

theorem FS.read_write_self (fs : FS) (p c : String) :
    FS.read (FS.write fs p c) p = some c := by
  induction fs with
  | nil => simp [FS.write, FS.read, List.find?]
  | cons e t ih =>
    by_cases h : e.1 == p
    · simp [FS.write, h, FS.read, List.find?]
    · simp only [FS.write, h, if_false, Bool.false_eq_true]
      simpa [FS.read, List.find?, h] using ih

theorem FS.read_write_ne (fs : FS) (p q c : String) (h : q ≠ p) :
    FS.read (FS.write fs p c) q = FS.read fs q := by
  induction fs with
  | nil =>
    simp [FS.write, FS.read, List.find?, show (p == q) = false by
      simp [Ne.symm h]]
  | cons e t ih =>
    by_cases he : e.1 == p
    · have hq : (e.1 == q) = false := by
        simp only [beq_iff_eq] at he ⊢
        simp [he, Ne.symm h]
      simp [FS.write, he, FS.read, List.find?, hq, show (p == q) = false by simp [Ne.symm h]]
    · by_cases hq : e.1 == q
      · simp [FS.write, he, FS.read, List.find?, hq]
      · simpa [FS.write, he, FS.read, List.find?, hq] using ih

theorem FS.exists_eq_isSome (fs : FS) (p : String) :
    FS.exists fs p = (FS.read fs p).isSome := rfl

theorem splitOn_single_of_not_mem (xs : List Char) (c : Char) (h : c ∉ xs) :
    xs.splitOn c = [xs] :=
  List.splitOnP_eq_single _ _ (fun x hx hc => h (by rwa [eq_of_beq hc] at hx))

theorem splitOn_first_of_not_mem (xs : List Char) (c : Char) (h : c ∉ xs) (as : List Char) :
    (xs ++ c :: as).splitOn c = xs :: as.splitOn c :=
  List.splitOnP_first (· == c) xs (fun x hx hc => h (by rwa [eq_of_beq hc] at hx)) c
    (by simp) as

theorem writeLines_toList_aux (ls : List String) :
    ∀ acc : String, (ls.foldl (fun acc l => acc ++ l ++ "\n") acc).toList
      = acc.toList ++ (ls.map (fun l => l.toList ++ ['\n'])).flatten := by
  induction ls with
  | nil => intro acc; simp
  | cons l t ih =>
    intro acc
    simp only [List.foldl_cons, List.map_cons, List.flatten_cons]
    rw [ih (acc ++ l ++ "\n"), toList_append, toList_append]
    simp [List.append_assoc]

theorem writeLines_toList (ls : List String) :
    (writeLines ls).toList = (ls.map (fun l => l.toList ++ ['\n'])).flatten := by
  simpa using writeLines_toList_aux ls ""

theorem splitOn_writeLines (ls : List String) (h : ∀ l ∈ ls, '\n' ∉ l.toList) :
    (writeLines ls).toList.splitOn '\n' = ls.map String.toList ++ [[]] := by
  induction ls with
  | nil => rfl
  | cons l t ih =>
    rw [writeLines_toList] at ih ⊢
    simp only [List.map_cons, List.flatten_cons, List.append_assoc]
    rw [show ('\n' :: []) ++ (t.map (fun l => l.toList ++ ['\n'])).flatten
          = '\n' :: (t.map (fun l => l.toList ++ ['\n'])).flatten from rfl]
    rw [splitOn_first_of_not_mem _ _ (h l (by simp)), ih (fun x hx => h x (by simp [hx]))]
    simp

theorem scanLines_writeLines (ls : List String)
    (h : ∀ l ∈ ls, '\n' ∉ l.toList ∧ l.toList.getLast? ≠ some '\r') :
    scanLines (writeLines ls) = ls := by
  unfold scanLines
  rw [splitOn_writeLines ls (fun l hl => (h l hl).1)]
  have hlast : (List.map String.toList ls ++ [[]]).getLast? = some ([] : List Char) := by
    simp
  have hdrop : (List.map String.toList ls ++ [[]]).dropLast = List.map String.toList ls := by
    simp
  dsimp only
  rw [hlast, if_pos rfl, hdrop, List.map_map]
  have hmap : ∀ l ∈ ls, ((fun l => (dropCR l).asString) ∘ String.toList) l = id l := by
    intro l hl
    simp only [Function.comp_apply, id_eq]
    unfold dropCR
    rw [if_neg (h l hl).2]
    exact String.asString_toList l
  rw [List.map_congr_left hmap, List.map_id]

theorem joinComma_toList_cons₂ (c c' : String) (t : List String) :
    (joinComma (c :: c' :: t)).toList = c.toList ++ ',' :: (joinComma (c' :: t)).toList := by
  show (c ++ "," ++ joinComma (c' :: t)).toList = _
  rw [toList_append, toList_append]
  simp [List.append_assoc]

theorem char_not_mem_joinComma (x : Char) (cats : List String)
    (hx : x ≠ ',') (h : ∀ c ∈ cats, x ∉ c.toList) :
    x ∉ (joinComma cats).toList := by
  induction cats with
  | nil => simp [joinComma]
  | cons c t ih =>
    cases t with
    | nil => simpa [joinComma] using h c (by simp)
    | cons c' t' =>
      rw [joinComma_toList_cons₂]
      intro hmem
      rcases List.mem_append.mp hmem with h1 | h2
      · exact h c (by simp) h1
      · rcases List.mem_cons.mp h2 with h3 | h4
        · exact hx h3
        · exact ih (fun d hd => h d (List.mem_cons_of_mem _ hd)) h4

theorem joinComma_toList_splitOn (cats : List String) (hne : cats ≠ [])
    (h : ∀ c ∈ cats, ',' ∉ c.toList) :
    (joinComma cats).toList.splitOn ',' = cats.map String.toList := by
  induction cats with
  | nil => exact absurd rfl hne
  | cons c t ih =>
    cases t with
    | nil =>
      show c.toList.splitOn ',' = [c.toList]
      exact splitOn_single_of_not_mem _ _ (h c (by simp))
    | cons c' t' =>
      rw [joinComma_toList_cons₂, splitOn_first_of_not_mem _ _ (h c (by simp)),
        ih (by simp) (fun d hd => h d (List.mem_cons_of_mem _ hd))]
      rfl

theorem goSplit_joinComma (cats : List String) (hne : cats ≠ [])
    (h : ∀ c ∈ cats, ',' ∉ c.toList) :
    goSplit (joinComma cats) ',' = cats := by
  unfold goSplit
  rw [joinComma_toList_splitOn cats hne h, List.map_map]
  have hmap : ∀ c ∈ cats, (List.asString ∘ String.toList) c = id c := fun c _ =>
    String.asString_toList c
  rw [List.map_congr_left hmap, List.map_id]

theorem format_default_toList (path : String) (cats : List String) (ts : String) :
    (format path cats "" ts).toList
      = path.toList ++ '|' :: ((joinComma cats).toList ++ '|' :: ts.toList) := by
  show (path ++ "|" ++ joinComma cats ++ "|" ++ ts).toList = _
  rw [toList_append, toList_append, toList_append]
  simp [List.append_assoc]

theorem goSplit_format (path ts : String) (cats : List String)
    (hp : '|' ∉ path.toList) (hc : ∀ c ∈ cats, '|' ∉ c.toList) :
    goSplit (format path cats "" ts) '|' = path :: joinComma cats :: goSplit ts '|' := by
  unfold goSplit
  rw [format_default_toList, splitOn_first_of_not_mem _ _ hp,
    splitOn_first_of_not_mem _ _ (char_not_mem_joinComma _ _ (by decide) hc)]
  simp only [List.map_cons]
  rfl

theorem intercalate_go_eq_joinComma :
    ∀ (as : List String) (acc : String),
      String.intercalate.go acc "," as = joinComma (acc :: as) := by
  intro as
  induction as with
  | nil => intro acc; rfl
  | cons a t ih =>
    intro acc
    rw [show String.intercalate.go acc "," (a :: t)
        = String.intercalate.go (acc ++ "," ++ a) "," t from rfl, ih]
    cases t with
    | nil =>
      apply String.toList_inj.mp
      simp [joinComma, toList_append, List.append_assoc]
    | cons b t' =>
      show (acc ++ "," ++ a) ++ "," ++ joinComma (b :: t')
        = acc ++ "," ++ (a ++ "," ++ joinComma (b :: t'))
      apply String.toList_inj.mp
      simp [toList_append, List.append_assoc]

theorem joinComma_eq_intercalate (cats : List String) :
    joinComma cats = String.intercalate "," cats := by
  cases cats with
  | nil => rfl
  | cons c t => exact (intercalate_go_eq_joinComma t c).symm

theorem containsAll_eq_true_iff (set subset : List String) :
    containsAll set subset = true ↔ ∀ c ∈ subset, c ∈ set := by
  simp [containsAll]

theorem get_foldl_eq (re : String → Bool) (required : List String) :
    ∀ (lines acc : List String),
      (lines.foldl (fun found line =>
        let parts := goSplit line '|'
        if parts.length < 3 then found
        else
          let path := parts.getD 0 ""
          let fileCategories := goSplit (parts.getD 1 "") ','
          if re path && containsAll fileCategories required then found ++ [path]
          else found) acc)
      = acc ++ querySpec re required lines := by
  intro lines
  induction lines with
  | nil => intro acc; simp [querySpec]
  | cons line t ih =>
    intro acc
    rw [List.foldl_cons, ih]
    show (if (goSplit line '|').length < 3 then acc
        else if re ((goSplit line '|').getD 0 "")
            && containsAll (goSplit ((goSplit line '|').getD 1 "") ',') required
          then acc ++ [(goSplit line '|').getD 0 ""] else acc) ++ querySpec re required t
      = acc ++ querySpec re required (line :: t)
    rw [show querySpec re required (line :: t)
        = (if (goSplit line '|').length < 3 then querySpec re required t
           else if re ((goSplit line '|').getD 0 "") = true
               ∧ (∀ c ∈ required, c ∈ goSplit ((goSplit line '|').getD 1 "") ',')
             then (goSplit line '|').getD 0 "" :: querySpec re required t
             else querySpec re required t) from rfl]
    by_cases h3 : (goSplit line '|').length < 3
    · rw [if_pos h3, if_pos h3]
    · rw [if_neg h3, if_neg h3]
      by_cases hb : (re ((goSplit line '|').getD 0 "")
          && containsAll (goSplit ((goSplit line '|').getD 1 "") ',') required) = true
      · have hcond : re ((goSplit line '|').getD 0 "") = true
            ∧ ∀ c ∈ required, c ∈ goSplit ((goSplit line '|').getD 1 "") ',' := by
          rw [Bool.and_eq_true] at hb
          exact ⟨hb.1, (containsAll_eq_true_iff _ _).mp hb.2⟩
        rw [if_pos hb, if_pos hcond]
        simp
      · have hcond : ¬(re ((goSplit line '|').getD 0 "") = true
            ∧ ∀ c ∈ required, c ∈ goSplit ((goSplit line '|').getD 1 "") ',') := by
          intro hc
          exact hb (by
            rw [Bool.and_eq_true]
            exact ⟨hc.1, (containsAll_eq_true_iff _ _).mpr hc.2⟩)
        rw [if_neg (by simpa using hb), if_neg hcond]

theorem registerFile_ok_true (fs : FS) (fn : String) (cats : List String)
    (b : Bool) (now : String) (fs1 : FS) (b2 : Bool)
    (h : registerFile fs fn cats b now = (fs1, .ok b2)) : b2 = true := by
  unfold registerFile at h
  cases hr : FS.read fs fn with
  | none =>
    rw [hr] at h
    simp only [Prod.mk.injEq] at h
    exact absurd h.2 (fun hc => Except.noConfusion hc)
  | some content =>
    rw [hr] at h
    dsimp only at h
    by_cases hdb : FS.exists fs ".catodb"
    · rw [if_pos hdb] at h
      have h2 := (Prod.mk.injEq _ _ _ _).mp h
      exact (Except.ok.inj h2.2).symm
    · rw [if_neg hdb] at h
      simp only [Prod.mk.injEq] at h
      exact absurd h.2 (fun hc => Except.noConfusion hc)

theorem walkRegister_ok (re : String → Bool) (now : String) :
    ∀ (entries : List WalkEntry) (fs : FS) (acc l : List String),
      (walkRegister re now fs acc entries).2 = .ok l →
      l = acc ++ (entries.filter (fun e => !e.isDir && re e.name)).map WalkEntry.path := by
  intro entries
  induction entries with
  | nil =>
    intro fs acc l h
    simp only [walkRegister] at h
    simp [← Except.ok.inj h]
  | cons e rest ih =>
    intro fs acc l h
    simp only [walkRegister] at h
    cases hw : e.walkErr with
    | some w =>
      rw [hw] at h
      exact absurd h (by simp)
    | none =>
      rw [hw] at h
      dsimp only at h
      by_cases hm : (!e.isDir && re e.name) = true
      · rw [if_pos hm] at h
        cases hrf : readFile fs e.path with
        | error err =>
          rw [hrf] at h
          exact absurd h (by simp)
        | ok cats =>
          rw [hrf] at h
          dsimp only at h
          rcases hreg : registerFile fs e.path cats true now with ⟨fs1, r⟩
          rw [hreg] at h
          cases r with
          | error err => exact absurd h (by simp)
          | ok success =>
            have hs : success = true :=
              registerFile_ok_true fs e.path cats true now fs1 success hreg
            subst hs
            have hrec := ih fs1 (acc ++ [e.path]) l (by simpa using h)
            rw [hrec, List.filter_cons, if_pos hm, List.map_cons]
            simp
      · rw [if_neg hm] at h
        rw [ih fs acc l h, List.filter_cons, if_neg hm]

/-! ## Claim theorems -/

/-- Claim C1: the claim says registerFile fails with InvalidCategories ("some
categories do not exist") and appends nothing when a requested category is
absent from the reference listing.  The code performs no category validation
at all: with subject "test_register_file.txt" present (listing Books and
Movies) and requested category "NonExistent", registerFile reports success
and appends a record line, contradicting the repository's own test. -/
theorem registerFile_no_category_validation :
    (registerFile [("test_register_file.txt", "Books\nMovies\n"), (".catodb", "")]
        "test_register_file.txt" ["NonExistent"] false "2023-07-01T00:00:00Z").2 = .ok true
    ∧ FS.read (registerFile [("test_register_file.txt", "Books\nMovies\n"), (".catodb", "")]
        "test_register_file.txt" ["NonExistent"] false "2023-07-01T00:00:00Z").1 ".catodb"
      = some "test_register_file.txt|NonExistent|2023-07-01T00:00:00Z\n" := by
  constructor
  · rfl
  · rfl

/-- Claim C2 counterexample: the round trip fails for arbitrary inputs.  For
path "a|b" (containing the separator) the query engine's re-split recovers
path "a", not "a|b"; with zero categories it recovers the category set [""],
not []; and a category containing "," is split into two categories. -/
theorem roundTrip_fails_on_pipe_in_path :
    ((parseLine (format "a|b" ["c"] "" "2023-07-01T00:00:00Z")).map Prod.fst = some "a"
      ∧ ("a" : String) ≠ "a|b")
    ∧ ((parseLine (format "/p" [] "" "2023-07-01T00:00:00Z")).map Prod.snd = some [""]
      ∧ ([""] : List String) ≠ [])
    ∧ ((parseLine (format "/p" ["a,b"] "" "2023-07-01T00:00:00Z")).map Prod.snd
        = some ["a", "b"]
      ∧ (["a", "b"] : List String) ≠ ["a,b"]) := by
  refine ⟨⟨rfl, by decide⟩, ⟨rfl, by decide⟩, ⟨rfl, by decide⟩⟩

/-- Claim C2 (amended): for every path without "|", every nonempty category
sequence whose members contain neither "|" nor ",", and any timestamp, the
formatted line re-parsed by the query engine's splitting rule recovers exactly
the same path and the same categories. -/
theorem roundTrip_clean_inputs (path ts : String) (cats : List String)
    (hp : '|' ∉ path.toList) (hne : cats ≠ [])
    (hc : ∀ c ∈ cats, '|' ∉ c.toList ∧ ',' ∉ c.toList) :
    parseLine (format path cats "" ts) = some (path, cats) := by
  unfold parseLine
  rw [goSplit_format path ts cats hp (fun c h => (hc c h).1)]
  have hsplit : goSplit ts '|' ≠ [] := by
    unfold goSplit
    intro hcon
    exact List.splitOnP_ne_nil (· == '|') ts.toList (List.map_eq_nil_iff.mp hcon)
  have hlen : ¬(path :: joinComma cats :: goSplit ts '|').length < 3 := by
    have h1 : 0 < (goSplit ts '|').length := List.length_pos.mpr hsplit
    simp only [List.length_cons]
    omega
  rw [if_neg hlen]
  rw [show (path :: joinComma cats :: goSplit ts '|').getD 1 "" = joinComma cats from rfl]
  rw [goSplit_joinComma cats hne (fun c h => (hc c h).2)]
  rfl

/-- Claim C2 witness: the round trip at a concrete clean input. -/
theorem roundTrip_clean_inputs_witness :
    parseLine (format "/p/f" ["Books", "Movies"] "" "2023-07-01T00:00:00Z")
      = some ("/p/f", ["Books", "Movies"]) :=
  roundTrip_clean_inputs "/p/f" "2023-07-01T00:00:00Z" ["Books", "Movies"]
    (by decide) (by decide) (by decide)

/-- Claim C3: registerFile fails with NotFound ("file does not exist") when
the subject is missing, and whenever it returns an error the registry content
is unchanged — no partial append on upstream failure. -/
theorem registerFile_errors_before_append (fs : FS) (fn now : String)
    (cats : List String) (b : Bool) :
    (FS.read fs fn = none →
      registerFile fs fn cats b now = (fs, .error "file does not exist"))
    ∧ (∀ msg, (registerFile fs fn cats b now).2 = .error msg →
        FS.read (registerFile fs fn cats b now).1 ".catodb" = FS.read fs ".catodb") := by
  constructor
  · intro h
    unfold registerFile
    rw [h]
  · intro msg h
    unfold registerFile at h ⊢
    cases hr : FS.read fs fn with
    | none => rfl
    | some content =>
      rw [hr] at h
      dsimp only at h ⊢
      by_cases hdb : FS.exists fs ".catodb"
      · rw [if_pos hdb] at h
        exact absurd h (by simp)
      · rw [if_neg hdb]

/-- Claim C3 witness: at a concrete missing subject. -/
theorem registerFile_errors_before_append_witness :
    registerFile [] "missing.txt" ["Books"] true "T"
      = (([] : FS), .error "file does not exist")
    ∧ FS.read (registerFile [] "missing.txt" ["Books"] true "T").1 ".catodb"
      = FS.read ([] : FS) ".catodb" :=
  ⟨(registerFile_errors_before_append [] "missing.txt" "T" ["Books"] true).1 rfl,
   (registerFile_errors_before_append [] "missing.txt" "T" ["Books"] true).2
     "file does not exist" rfl⟩

/-- Claim C4: creating a category listing at a fresh path succeeds, the
resource afterwards contains exactly the given labels one per line in input
order (its content is the line-joined labels, and scanning it back yields the
labels); creating again at the same path fails with AlreadyExists and leaves
the filesystem, hence the existing content, unchanged. -/
theorem createCategory_create_exclusive (fs : FS) (cats cats2 : List String)
    (p : String) (hfresh : FS.read fs p = none)
    (hclean : ∀ c ∈ cats, '\n' ∉ c.toList ∧ c.toList.getLast? ≠ some '\r') :
    (CreateCategory fs cats p).2 = .ok true
    ∧ FS.read (CreateCategory fs cats p).1 p = some (writeLines cats)
    ∧ scanLines (writeLines cats) = cats
    ∧ CreateCategory (CreateCategory fs cats p).1 cats2 p
        = ((CreateCategory fs cats p).1, .error "file already exists") := by
  have hex : FS.exists fs p = false := by
    unfold FS.exists
    rw [hfresh]
    rfl
  have h1 : CreateCategory fs cats p = (FS.write fs p (writeLines cats), .ok true) := by
    unfold CreateCategory
    rw [hex]
    rfl
  refine ⟨by rw [h1], ?_, scanLines_writeLines cats hclean, ?_⟩
  · rw [h1]
    exact FS.read_write_self fs p (writeLines cats)
  · rw [h1]
    dsimp only
    have hex2 : FS.exists (FS.write fs p (writeLines cats)) p = true := by
      unfold FS.exists
      rw [FS.read_write_self]
      rfl
    unfold CreateCategory
    rw [hex2]
    rfl

/-- Claim C4 witness: concrete fresh create followed by a second create. -/
theorem createCategory_create_exclusive_witness :
    (CreateCategory [] ["Books", "Movies"] "cat.txt").2 = .ok true
    ∧ FS.read (CreateCategory [] ["Books", "Movies"] "cat.txt").1 "cat.txt"
      = some (writeLines ["Books", "Movies"])
    ∧ scanLines (writeLines ["Books", "Movies"]) = ["Books", "Movies"]
    ∧ CreateCategory (CreateCategory [] ["Books", "Movies"] "cat.txt").1 ["Music"] "cat.txt"
      = ((CreateCategory [] ["Books", "Movies"] "cat.txt").1, .error "file already exists") :=
  createCategory_create_exclusive [] ["Books", "Movies"] ["Music"] "cat.txt" rfl (by decide)

/-- Claim C5: on an existing listing, DeleteCategory rewrites the resource
with exactly the lines different from the label, in original order, and
reports success (also when the label is absent, since the filter is then the
identity); on a missing listing it fails with NotFound. -/
theorem deleteCategory_removes_matching_lines (fs : FS) (label p : String)
    (cats : List String)
    (hclean : ∀ c ∈ cats, '\n' ∉ c.toList ∧ c.toList.getLast? ≠ some '\r') :
    (FS.read fs p = some (writeLines cats) →
      DeleteCategory fs label p
        = (FS.write fs p (writeLines (cats.filter (fun c => c != label))), .ok true))
    ∧ (FS.read fs p = none → DeleteCategory fs label p = (fs, .error "file does not exist")) := by
  constructor
  · intro h
    unfold DeleteCategory
    rw [h]
    dsimp only
    rw [scanLines_writeLines cats hclean]
  · intro h
    unfold DeleteCategory
    rw [h]

/-- Claim C5 witness: deleting "Movies" from Books, Movies, Music, and the
missing-listing case. -/
theorem deleteCategory_removes_matching_lines_witness :
    DeleteCategory [("cat.txt", writeLines ["Books", "Movies", "Music"])] "Movies" "cat.txt"
      = (FS.write [("cat.txt", writeLines ["Books", "Movies", "Music"])] "cat.txt"
          (writeLines (["Books", "Movies", "Music"].filter (fun c => c != "Movies"))), .ok true)
    ∧ DeleteCategory [] "Movies" "cat.txt" = (([] : FS), .error "file does not exist") :=
  ⟨(deleteCategory_removes_matching_lines
      [("cat.txt", writeLines ["Books", "Movies", "Music"])] "Movies" "cat.txt"
      ["Books", "Movies", "Music"] (by decide)).1 rfl,
   (deleteCategory_removes_matching_lines [] "Movies" "cat.txt"
      ["Books", "Movies", "Music"] (by decide)).2 rfl⟩

/-- Claim C6: format with the empty separator behaves as with "|"; the line
is path, separator, the comma-join of the categories (a library intercalate,
empty middle field for zero categories), separator, timestamp; nothing
follows the timestamp, so the line's last character is the timestamp's last
character — in particular no trailing separator or newline.  The RFC-3339
instant itself is modelled by the timestamp parameter. -/
theorem format_default_shape (path ts : String) (cats : List String) (hts : ts ≠ "") :
    format path cats "" ts = format path cats "|" ts
    ∧ format path cats "|" ts = path ++ "|" ++ String.intercalate "," cats ++ "|" ++ ts
    ∧ format path [] "" ts = path ++ "|" ++ "" ++ "|" ++ ts
    ∧ (format path cats "" ts).toList.getLast? = ts.toList.getLast? := by
  refine ⟨rfl, ?_, rfl, ?_⟩
  · show path ++ "|" ++ joinComma cats ++ "|" ++ ts = _
    rw [joinComma_eq_intercalate]
  · have h2 : ts.toList ≠ [] := by
      intro hcon
      exact hts (String.toList_inj.mp (by rw [hcon]; rfl))
    have h3 : format path cats "" ts = (path ++ "|" ++ joinComma cats ++ "|") ++ ts := rfl
    rw [h3, toList_append, List.getLast?_append_of_ne_nil _ h2]

/-- Claim C6 witness: the shape at a concrete path, categories and instant. -/
theorem format_default_shape_witness :
    format "/p/f" ["Books", "Movies"] "" "2023-07-01T00:00:00Z"
      = format "/p/f" ["Books", "Movies"] "|" "2023-07-01T00:00:00Z"
    ∧ format "/p/f" ["Books", "Movies"] "|" "2023-07-01T00:00:00Z"
      = "/p/f" ++ "|" ++ String.intercalate "," ["Books", "Movies"] ++ "|"
        ++ "2023-07-01T00:00:00Z"
    ∧ format "/p/f" [] "" "2023-07-01T00:00:00Z"
      = "/p/f" ++ "|" ++ "" ++ "|" ++ "2023-07-01T00:00:00Z"
    ∧ (format "/p/f" ["Books", "Movies"] "" "2023-07-01T00:00:00Z").toList.getLast?
      = "2023-07-01T00:00:00Z".toList.getLast? :=
  format_default_shape "/p/f" "2023-07-01T00:00:00Z" ["Books", "Movies"] (by decide)

/-- Claim C7: with the registry present, get returns exactly the scan of its
lines described by the specification: split each line on "|", silently skip
lines with fewer than 3 fields, keep the path field exactly when it matches
the pattern and the comma-split category field contains every required
category, preserving scan order and duplicates. -/
theorem get_matches_querySpec (fs : FS) (re : String → Bool)
    (required : List String) (db : String)
    (hdb : FS.read fs ".catodb" = some db) :
    get fs (some re) required = .ok (querySpec re required (scanLines db)) := by
  unfold get
  rw [hdb]
  dsimp only
  rw [get_foldl_eq re required (scanLines db) []]
  rfl

/-- Claim C7 witness: the query at a concrete two-record registry. -/
theorem get_matches_querySpec_witness :
    get ([(".catodb", "/path/to/file1|Books,Movies|T1\n/path/to/file2|Music,Games|T2\n")] : FS)
        (some (fun p => p == "/path/to/file1")) ["Books"]
      = .ok (querySpec (fun p => p == "/path/to/file1") ["Books"]
          (scanLines "/path/to/file1|Books,Movies|T1\n/path/to/file2|Music,Games|T2\n")) :=
  get_matches_querySpec _ _ _ _ rfl

/-- Claim C8: with the registry missing, registerFile fails (whatever the
other arguments) and afterwards the registry still does not exist — nothing
auto-creates it — and get fails with the NotFound error "file does not
exist"; get only opens the registry for reading and returns no new state. -/
theorem missing_registry_fails_append_and_get (fs : FS) (fn now : String)
    (cats req : List String) (b : Bool) (re : String → Bool)
    (hdb : FS.read fs ".catodb" = none) :
    (∃ msg, (registerFile fs fn cats b now).2 = .error msg)
    ∧ FS.read (registerFile fs fn cats b now).1 ".catodb" = none
    ∧ get fs (some re) req = .error "file does not exist" := by
  have hex : FS.exists fs ".catodb" = false := by
    unfold FS.exists
    rw [hdb]
    rfl
  have h1 : (registerFile fs fn cats b now).1 = fs
      ∧ ∃ msg, (registerFile fs fn cats b now).2 = .error msg := by
    unfold registerFile
    cases hr : FS.read fs fn with
    | none => exact And.intro rfl (Exists.intro "file does not exist" rfl)
    | some content =>
      dsimp only
      simp only [hex, Bool.false_eq_true, if_false]
      exact And.intro trivial
        (Exists.intro "failed to open .catodb for writing: file does not exist" rfl)
  refine ⟨h1.2, ?_, ?_⟩
  · rw [h1.1]
    exact hdb
  · unfold get
    rw [hdb]

/-- Claim C8 witness: a concrete filesystem holding only the subject file. -/
theorem missing_registry_fails_append_and_get_witness :
    (∃ msg, (registerFile [("f.txt", "x")] "f.txt" ["Books"] true "T").2 = .error msg)
    ∧ FS.read (registerFile [("f.txt", "x")] "f.txt" ["Books"] true "T").1 ".catodb" = none
    ∧ get ([("f.txt", "x")] : FS) (some (fun p => p == "f.txt")) [] = .error "file does not exist" :=
  missing_registry_fails_append_and_get [("f.txt", "x")] "f.txt" "T" ["Books"] []
    true (fun p => p == "f.txt") rfl

/-- Claim C10: with the subject present, snapshotting requested and the
registry missing, registerFile fails having changed nothing: the registry is
opened before the snapshot is made, so the whole filesystem — in particular
the `subjectPath + ".copy"` snapshot — is untouched. -/
theorem missing_registry_leaves_snapshot_untouched (fs : FS) (fn now c : String)
    (cats : List String) (hsubj : FS.read fs fn = some c)
    (hdb : FS.read fs ".catodb" = none) :
    registerFile fs fn cats true now
      = (fs, .error "failed to open .catodb for writing: file does not exist")
    ∧ FS.read (registerFile fs fn cats true now).1 (fn ++ ".copy")
      = FS.read fs (fn ++ ".copy") := by
  have hex : FS.exists fs ".catodb" = false := by
    unfold FS.exists
    rw [hdb]
    rfl
  have h1 : registerFile fs fn cats true now
      = (fs, .error "failed to open .catodb for writing: file does not exist") := by
    unfold registerFile
    rw [hsubj]
    dsimp only
    simp only [hex, Bool.false_eq_true, if_false]
  exact ⟨h1, by rw [h1]⟩

/-- Claim C10 witness: a concrete subject with no registry. -/
theorem missing_registry_leaves_snapshot_untouched_witness :
    registerFile [("f.txt", "x")] "f.txt" ["Books"] true "T"
      = (([("f.txt", "x")] : FS),
          .error "failed to open .catodb for writing: file does not exist")
    ∧ FS.read (registerFile [("f.txt", "x")] "f.txt" ["Books"] true "T").1 "f.txt.copy"
      = FS.read ([("f.txt", "x")] : FS) "f.txt.copy" := by
  have h := missing_registry_leaves_snapshot_untouched [("f.txt", "x")] "f.txt" "T" "x"
    ["Books"] rfl rfl
  exact ⟨h.1, h.2⟩


/-- Claim C9: registerFiles aborts immediately with an error on a
pattern-compile error (before touching any entry), on a traversal error at
any entry, and on any single matched file's registration failure (fail-fast,
no skip-and-continue); a matched non-directory entry is registered with the
file's own scanned lines as its categories and with snapshotting enabled;
and any run that returns a path list returns exactly the matched
non-directory paths in traversal order. -/
theorem registerFiles_failfast_and_traversal_order (fs : FS) (re : String → Bool)
    (now : String) (entries : List WalkEntry) :
    registerFiles fs none entries now = (fs, .error "error parsing regexp")
    ∧ (∀ (fs1 : FS) (acc : List String) (e : WalkEntry) (rest : List WalkEntry) (w : String),
        e.walkErr = some w →
        walkRegister re now fs1 acc (e :: rest) = (fs1, .error w))
    ∧ (∀ (fs1 : FS) (acc : List String) (e : WalkEntry) (rest : List WalkEntry) (c : String),
        e.walkErr = none → e.isDir = false → re e.name = true →
        FS.read fs1 e.path = some c →
        (∀ (fs2 : FS) (msg : String),
            registerFile fs1 e.path (scanLines c) true now = (fs2, .error msg) →
            walkRegister re now fs1 acc (e :: rest) = (fs2, .error msg))
          ∧ (∀ fs2 : FS,
            registerFile fs1 e.path (scanLines c) true now = (fs2, .ok true) →
            walkRegister re now fs1 acc (e :: rest)
              = walkRegister re now fs2 (acc ++ [e.path]) rest))
    ∧ (∀ l, (registerFiles fs (some re) entries now).2 = .ok l →
        l = (entries.filter (fun e => !e.isDir && re e.name)).map WalkEntry.path) := by
  refine ⟨rfl, ?_, ?_, ?_⟩
  · intro fs1 acc e rest w hw
    simp only [walkRegister]
    rw [hw]
  · intro fs1 acc e rest c hw hdir hname hread
    have hm : (!e.isDir && re e.name) = true := by
      rw [hdir, hname]
      rfl
    have hrf : readFile fs1 e.path = .ok (scanLines c) := by
      unfold readFile
      rw [hread]
    constructor
    · intro fs2 msg hreg
      simp only [walkRegister]
      rw [hw]
      dsimp only
      rw [if_pos hm, hrf]
      dsimp only
      rw [hreg]
    · intro fs2 hreg
      simp only [walkRegister]
      rw [hw]
      dsimp only
      rw [if_pos hm, hrf]
      dsimp only
      rw [hreg]
      rfl
  · intro l h
    exact walkRegister_ok re now entries fs [] l h

/-- Claim C9 witness: a concrete compile failure, a traversal failure, a
registration failure aborting the walk, a successful matched step using the
file's own lines with snapshotting on, and a successful run's path list. -/
theorem registerFiles_failfast_witness :
    registerFiles [] none [] "T" = (([] : FS), .error "error parsing regexp")
    ∧ walkRegister (fun n => n == "a.txt") "T" [] []
        [⟨"d/a.txt", "a.txt", false, some "boom"⟩] = (([] : FS), .error "boom")
    ∧ walkRegister (fun n => n == "a.txt") "T" [("d/a.txt", "Books\n")] []
        [⟨"d/a.txt", "a.txt", false, none⟩]
      = ([("d/a.txt", "Books\n")],
          .error "failed to open .catodb for writing: file does not exist")
    ∧ walkRegister (fun n => n == "a.txt") "T" [("d/a.txt", "Books\n"), (".catodb", "")] []
        [⟨"d/a.txt", "a.txt", false, none⟩]
      = walkRegister (fun n => n == "a.txt") "T"
          (registerFile [("d/a.txt", "Books\n"), (".catodb", "")] "d/a.txt"
            (scanLines "Books\n") true "T").1 ["d/a.txt"] []
    ∧ (["d/a.txt"] : List String)
      = (([⟨"d/a.txt", "a.txt", false, none⟩] : List WalkEntry).filter
          (fun e => !e.isDir && (fun n => n == "a.txt") e.name)).map WalkEntry.path :=
  ⟨(registerFiles_failfast_and_traversal_order [] (fun n => n == "a.txt") "T" []).1,
   (registerFiles_failfast_and_traversal_order [] (fun n => n == "a.txt") "T" []).2.1
     [] [] ⟨"d/a.txt", "a.txt", false, some "boom"⟩ [] "boom" rfl,
   ((registerFiles_failfast_and_traversal_order [] (fun n => n == "a.txt") "T" []).2.2.1
     [("d/a.txt", "Books\n")] [] ⟨"d/a.txt", "a.txt", false, none⟩ [] "Books\n"
     rfl rfl rfl rfl).1 [("d/a.txt", "Books\n")]
     "failed to open .catodb for writing: file does not exist" rfl,
   ((registerFiles_failfast_and_traversal_order [] (fun n => n == "a.txt") "T" []).2.2.1
     [("d/a.txt", "Books\n"), (".catodb", "")] [] ⟨"d/a.txt", "a.txt", false, none⟩ []
     "Books\n" rfl rfl rfl rfl).2
     (registerFile [("d/a.txt", "Books\n"), (".catodb", "")] "d/a.txt"
       (scanLines "Books\n") true "T").1 rfl,
   (registerFiles_failfast_and_traversal_order
     [("d/a.txt", "Books\n"), (".catodb", "")] (fun n => n == "a.txt") "T"
     [⟨"d/a.txt", "a.txt", false, none⟩]).2.2.2 ["d/a.txt"] rfl⟩

end Catobase
